import Mathlib

/-
Verification of the dolay layer-report tool (main.go) against its design
specification.  The Go program walks a docker image-save tar archive,
decodes the manifest and image history, extracts per-layer file listings,
and prints one report block per reconciled (history step, layer) pair.

Modelling conventions:
  * Go strings are raw byte sequences; we model them as lists of naturals
    (one per byte).  All names and commands live at the byte level because
    the program slices commands by raw byte index.
  * Machine integers: tar header sizes are nonnegative (the Go tar reader
    rejects negative sizes with ErrHeader), so sizes are Nat; the uint64
    accumulation of a layer total wraps, modelled by an explicit mod 2^64.
    Go int flags (maxFiles, lineWidth) are modelled as Int.
  * Fatal conditions (panics and returned errors) are modelled by an
    explicit error type threaded through the run.
-/

namespace Dolay

/-- Byte strings: a Go string is a raw byte sequence, modelled as a list of
naturals, one per byte. -/
abbrev Bytes := List Nat

/-- Bytes of the literal "/layer.tar", the suffix dispatched on by the
archive walker (main.go line 100). -/
def layerTarSuffix : Bytes := [47, 108, 97, 121, 101, 114, 46, 116, 97, 114]

/-- Bytes of the literal "manifest.json" (the constant named manifest,
main.go line 63). -/
def manifestName : Bytes := [109, 97, 110, 105, 102, 101, 115, 116, 46, 106, 115, 111, 110]

/-- Bytes of the literal ".json" (main.go line 126). -/
def jsonSuffix : Bytes := [46, 106, 115, 111, 110]

/-- Bytes of the literal "/bin/sh -c " split on when deriving the displayed
command (main.go line 142). -/
def shMarker : Bytes := [47, 98, 105, 110, 47, 115, 104, 32, 45, 99, 32]

/-- Bytes of the literal tab string used in strings.Replace (main.go
line 154). -/
def tabBytes : Bytes := [9]

/-- Bytes of the literal one-space string used in strings.Replace (main.go
line 154). -/
def spaceBytes : Bytes := [32]

/-- Model of tar.Header restricted to the fields the program consults:
Name, Size and FileInfo().IsDir().  Size is Nat because the Go tar reader
returns ErrHeader on a negative size, so no negative size reaches this
code. -/
structure TarHeader where
  name : Bytes
  size : Nat
  isDir : Bool
deriving Repr, DecidableEq

/-- Model of the History struct (main.go lines 47-50). -/
structure History where
  emptyLayer : Bool
  createdBy : Bytes
deriving Repr, DecidableEq

/-- Model of the Image struct (main.go lines 51-53). -/
structure Image where
  history : List History
deriving Repr, DecidableEq

/-- Model of the ManifestItem struct (main.go lines 41-45). -/
structure ManifestItem where
  config : Bytes
  repoTags : List Bytes
  layers : List Bytes
deriving Repr, DecidableEq

/-- Model of the Layer struct (main.go lines 56-59): the collected file
headers and the accumulated uint64 total size. -/
structure Layer where
  files : List TarHeader
  size : Nat
deriving Repr, DecidableEq

/-- Lexicographic byte-order comparison, the meaning of the Go string
operator < used by Files.Less (main.go line 38). -/
def bytesLt : Bytes → Bytes → Bool
  | [], [] => false
  | [], _ :: _ => true
  | _ :: _, [] => false
  | a :: as, b :: bs => if a < b then true else if b < a then false else bytesLt as bs

/-- Files.Less (main.go lines 34-39): size descending first, then name
ascending in byte order. -/
def fileLess (a b : TarHeader) : Bool :=
  if a.size ≠ b.size then decide (b.size < a.size) else bytesLt a.name b.name

/-- The non-strict order induced by Files.Less: a may come before b exactly
when Less does not demand b before a. -/
def fileLe (a b : TarHeader) : Bool := ! fileLess b a

/-- The non-strict order as a decidable proposition, for use with the
sorting development. -/
def fileLeP (a b : TarHeader) : Prop := fileLe a b = true

instance : DecidableRel fileLeP :=
  fun a b => inferInstanceAs (Decidable (fileLe a b = true))

/-- Model of sort.Sort(layer.Files) (main.go line 156).  Go sort.Sort is an
unstable comparison sort; any comparison sort produces a permutation of the
input that is pairwise ordered under fileLe, and on the modelled data two
headers unordered by fileLess have equal size and name, so the sequence of
(size, name) values shown is the same for every correct comparison sort.
We use insertion sort with fileLeP. -/
def sortFiles (l : List TarHeader) : List TarHeader := l.insertionSort fileLeP

/-- Helper for the SplitN model: the bytes after the first occurrence of
sep in s, or none when sep does not occur in s (for nonempty sep). -/
def splitAfterFirst (sep : Bytes) : Bytes → Option Bytes
  | [] => if sep.isEmpty then some [] else none
  | a :: rest =>
    if sep.isPrefixOf (a :: rest) then some ((a :: rest).drop sep.length)
    else splitAfterFirst sep rest

/-- Command derivation (main.go lines 141-147): tokens :=
strings.SplitN(action.CreatedBy, "/bin/sh -c ", 2); when the marker occurs,
the command is everything after its first occurrence (tokens has length 2),
otherwise the raw CreatedBy is used. -/
def deriveCmd (createdBy : Bytes) : Bytes :=
  match splitAfterFirst shMarker createdBy with
  | some rest => rest
  | none => createdBy

/-- Replacement loop of strings.Replace for a nonempty pattern: replaces
non-overlapping occurrences of old left to right while the remaining count
n is nonzero (a negative n never reaches zero, giving unlimited
replacements, matching the Go contract). -/
def replaceLoop (old new : Bytes) : Bytes → Int → Bytes
  | [], _ => []
  | a :: s, n =>
    if _h : n ≠ 0 ∧ old ≠ [] ∧ old.isPrefixOf (a :: s) then
      -- since old is nonempty, dropping old.length from a :: s is dropping
      -- old.length - 1 from s
      new ++ replaceLoop old new (s.drop (old.length - 1)) (n - 1)
    else a :: replaceLoop old new s n
termination_by s _ => s.length
decreasing_by
  all_goals simp only [List.length_drop, List.length_cons]
  all_goals omega

/-- Model of strings.Replace(s, old, new, n) at the byte level (main.go
line 154 calls it with old = tab, new = space, n = 0).  Per the Go library:
when old equals new or n is zero the input is returned unchanged; otherwise
up to n occurrences are replaced (all of them when n is negative).  The
rune-splitting behaviour of an empty old is never exercised by this program
and is modelled as the identity. -/
def goReplace (s old new : Bytes) (n : Int) : Bytes :=
  if old = new ∨ n = 0 then s else replaceLoop old new s n

/-- Fatal conditions of run: returned errors and runtime panics, all of
which abort the program through log.Fatal or the Go runtime. -/
inductive RunError
  /-- A tar read error or a JSON decode error returned from the walk loop. -/
  | ioOrFormat
  /-- manifests has no element 0 (main.go line 133 panics: index out of
  range). -/
  | noManifestEntry
  /-- manifest.Layers has no element i (main.go line 139 panics: index out
  of range). -/
  | layerIndexOutOfRange
  /-- layers has no entry for the requested path, so the map lookup yields
  nil and layer.Size dereferences a nil pointer (main.go line 154). -/
  | nilLayerLookup
  /-- cmd is sliced with a negative upper bound (main.go line 149 panics:
  slice bounds out of range, reachable only when lineWidth - 11 < 0). -/
  | cmdSliceOutOfRange
deriving Repr, DecidableEq

deriving instance DecidableEq for Except

/-- The fixed decoration width constant humanizedWidth (main.go line 62). -/
def humanizedWidth : Int := 7

/-- Command truncation (main.go lines 148-150): if len(cmd) > cmdWidth then
cmd = cmd[:cmdWidth].  Go slicing with a negative bound panics, and for a
negative bound the guard len(cmd) > cmdWidth always holds. -/
def truncGo (w : Int) (cmd : Bytes) : Except RunError Bytes :=
  if (cmd.length : Int) > w then
    if w < 0 then .error .cmdSliceOutOfRange else .ok (cmd.take w.toNat)
  else .ok cmd

/-- One report block of the output (main.go lines 152-162): the humanized
layer total printed on the summary line, the command text printed on the
summary line, and the file lines in print order. -/
structure Block where
  size : Nat
  cmdLine : Bytes
  shown : List TarHeader
deriving Repr, DecidableEq

/-- The per-iteration body of the report loop, from command derivation to
the printed block (main.go lines 141-162), given the result of the map
lookup layers[manifest.Layers[i]].  The nil-map-lookup panic fires at
layer.Size, after the command has been derived and truncated, so the slice
panic takes precedence over the nil dereference.  The file lines are the
sorted files cut off at index maxFiles (the loop breaks at j >= maxFiles,
so a nonpositive maxFiles prints no file line). -/
def mkBlockChecked (lineWidth maxFiles : Int) (action : History)
    (optLayer : Option Layer) : Except RunError Block :=
  match truncGo (lineWidth - humanizedWidth - 4) (deriveCmd action.createdBy) with
  | .error e => .error e
  | .ok cmd =>
    match optLayer with
    | none => .error .nilLayerLookup
    | some layer =>
      .ok { size := layer.size
            cmdLine := goReplace cmd tabBytes spaceBytes 0
            shown := (sortFiles layer.files).take maxFiles.toNat }

/-- Go map lookup on the layers map: the most recent binding for a key
wins (insertLayer prepends, so the first match is the latest binding). -/
def lookupLayer : List (Bytes × Layer) → Bytes → Option Layer
  | [], _ => none
  | (k, v) :: rest, key => if k = key then some v else lookupLayer rest key

/-- Go map assignment layers[name] = layer: a later binding for the same
key overwrites the earlier one. -/
def insertLayer (m : List (Bytes × Layer)) (k : Bytes) (v : Layer) :
    List (Bytes × Layer) :=
  (k, v) :: m

/-- The nested-tar extraction loop (main.go lines 103-119): headers are
visited in nested-archive order, directory entries are skipped, every other
header is appended to fs and its size accumulated into the uint64 total
(wrapping addition, hence mod 2^64). -/
def extractLoop (fs : List TarHeader) (total : Nat) : List TarHeader → Layer
  | [] => { files := fs, size := total }
  | h :: rest =>
    if h.isDir then extractLoop fs total rest
    else extractLoop (fs ++ [h]) ((total + h.size) % 2 ^ 64) rest

/-- The Layer built for one /layer.tar entry (main.go lines 100-120). -/
def extractLayer (entries : List TarHeader) : Layer := extractLoop [] 0 entries

/-- removeEmptyLayers (main.go lines 66-73): appends every step of old
whose EmptyLayer is false to h, in order.  At its call site h is a
length-zero slice aliasing the backing array of old; each append writes at
an index at most equal to the index already consumed from old (writing the
identical value when they coincide), so the values appended are the
original ones and the result is the filtered sequence. -/
def removeEmptyLayers (h : List History) (old : List History) : List History :=
  old.foldl (fun acc action => if !action.emptyLayer then acc ++ [action] else acc) h

/-- What an image JSON document says about the history field.  The three
cases have three distinct encoding/json behaviours when decoding into the
long-lived img variable: an object without the history key leaves the
field untouched, an explicit "history": null sets the slice to nil (JSON
null unmarshals into a slice by setting it to nil), and a history array
replaces the field with the decoded steps. -/
inductive HistoryField
  /-- The document has no history key: the field is left untouched. -/
  | absent
  /-- The document has "history": null: the slice is set to nil. -/
  | null
  /-- The document has a history array with these steps. -/
  | withValue (h : List History)
deriving Repr, DecidableEq

/-- The effect of json.Decode of an image document on the current History
slice, per the encoding/json rules described on HistoryField. -/
def HistoryField.decodeInto : HistoryField → List History → List History
  | .absent, cur => cur
  | .null, _ => []
  | .withValue h, _ => h

/-- The decoded view of one archive entry's content.  The walker dispatches
on the entry name and hands the content stream to exactly one decoder; a
content that the selected decoder cannot parse (including a JSON document
of the wrong shape for that decoder) is a decode error, modelled by the
constructor mismatch. -/
inductive Content
  /-- Content parses as a nested tar archive with these headers. -/
  | tarEntries (entries : List TarHeader)
  /-- Content parses as a JSON array of manifest items. -/
  | manifestDoc (items : List ManifestItem)
  /-- Content parses as a JSON object for the Image struct; the argument
  records what the document says about the history field. -/
  | imageDoc (history : HistoryField)
  /-- Content that none of the three decoders is given or can parse. -/
  | otherData
deriving Repr, DecidableEq

/-- One entry of the outer archive: its header name and its content. -/
structure Entry where
  name : Bytes
  content : Content
deriving Repr, DecidableEq

/-- The mutable state of the walk loop (main.go lines 86-88): the decoded
manifests, the decoded image, and the name-to-Layer map. -/
structure WalkState where
  manifests : List ManifestItem
  img : Image
  layers : List (Bytes × Layer)
deriving Repr, DecidableEq

/-- One iteration of the walk loop (main.go lines 99-130): dispatch on the
entry name, first match wins: suffix /layer.tar, then the exact name
manifest.json, then suffix .json, else ignore.  A content the selected
decoder cannot parse aborts the run. -/
def classifyStep (st : WalkState) (e : Entry) : Except RunError WalkState :=
  if layerTarSuffix.isSuffixOf e.name then
    match e.content with
    | .tarEntries es =>
      .ok { st with layers := insertLayer st.layers e.name (extractLayer es) }
    | _ => .error .ioOrFormat
  else if e.name = manifestName then
    match e.content with
    | .manifestDoc items => .ok { st with manifests := items }
    | _ => .error .ioOrFormat
  else if jsonSuffix.isSuffixOf e.name then
    match e.content with
    | .imageDoc f =>
      .ok { st with img := { history := f.decodeInto st.img.history } }
    | _ => .error .ioOrFormat
  else .ok st

/-- The walk loop over the outer archive (main.go lines 90-131). -/
def walk : WalkState → List Entry → Except RunError WalkState
  | st, [] => .ok st
  | st, e :: rest =>
    match classifyStep st e with
    | .error err => .error err
    | .ok st2 => walk st2 rest

/-- The zero values of the walk variables (main.go lines 86-88): a nil
manifest slice, an Image with nil history, an empty map. -/
def initState : WalkState :=
  { manifests := [], img := { history := [] }, layers := [] }

/-- The report loop (main.go lines 138-163) over the filtered history,
with i the running index into manifest.Layers.  The result is the list of
blocks fully emitted before any fatal condition, together with the fatal
condition if one fired. -/
def reportLoop (lineWidth maxFiles : Int) (layersMap : List (Bytes × Layer))
    (layerPaths : List Bytes) : List History → Nat → List Block × Option RunError
  | [], _ => ([], none)
  | action :: rest, i =>
    match layerPaths[i]? with
    | none => ([], some .layerIndexOutOfRange)
    | some path =>
      match mkBlockChecked lineWidth maxFiles action (lookupLayer layersMap path) with
      | .error e => ([], some e)
      | .ok b =>
        let r := reportLoop lineWidth maxFiles layersMap layerPaths rest (i + 1)
        (b :: r.1, r.2)

/-- The reconciliation and report phase of run (main.go lines 133-163):
take the first manifest entry (panicking when there is none), filter the
history in place, then run the report loop from index 0. -/
def runReport (lineWidth maxFiles : Int) (manifests : List ManifestItem)
    (img : Image) (layersMap : List (Bytes × Layer)) :
    List Block × Option RunError :=
  match manifests[0]? with
  | none => ([], some .noManifestEntry)
  | some m =>
    let history := removeEmptyLayers [] img.history
    reportLoop lineWidth maxFiles layersMap m.layers history 0

/-- The whole of run after flag parsing and file opening (main.go lines
86-165): walk the archive, then reconcile and report.  A walk error aborts
before any block is printed. -/
def run (lineWidth maxFiles : Int) (entries : List Entry) :
    List Block × Option RunError :=
  match walk initState entries with
  | .error e => ([], some e)
  | .ok st => runReport lineWidth maxFiles st.manifests st.img st.layers

/-- Pure value of a successful command truncation. -/
def truncPure (w : Int) (cmd : Bytes) : Bytes :=
  if (cmd.length : Int) > w then cmd.take w.toNat else cmd

/-- The block printed for one (history step, layer) pair when no fatal
condition fires. -/
def blockAt (lineWidth maxFiles : Int) (action : History) (layer : Layer) : Block :=
  { size := layer.size
    cmdLine := goReplace
      (truncPure (lineWidth - humanizedWidth - 4) (deriveCmd action.createdBy))
      tabBytes spaceBytes 0
    shown := (sortFiles layer.files).take maxFiles.toNat }

/-- Structural form of the report loop: the head step is paired with the
head of the remaining layer paths. -/
def pairBlocks (lineWidth maxFiles : Int) (layersMap : List (Bytes × Layer)) :
    List History → List Bytes → List Block × Option RunError
  | [], _ => ([], none)
  | _ :: _, [] => ([], some .layerIndexOutOfRange)
  | action :: rest, p :: ps =>
    match mkBlockChecked lineWidth maxFiles action (lookupLayer layersMap p) with
    | .error e => ([], some e)
    | .ok b =>
      let r := pairBlocks lineWidth maxFiles layersMap rest ps
      (b :: r.1, r.2)

lemma removeEmptyLayers_eq_filter (h : List History) (l : List History) :
    removeEmptyLayers h l = h ++ l.filter (fun a => !a.emptyLayer) := by
  induction l generalizing h with
  | nil => simp [removeEmptyLayers]
  | cons a rest ih =>
    have hstep : removeEmptyLayers h (a :: rest) =
        removeEmptyLayers (if !a.emptyLayer then h ++ [a] else h) rest := rfl
    rw [hstep, ih]
    by_cases ha : a.emptyLayer <;> simp [ha, List.filter_cons]

lemma goReplace_count_zero (s old new : Bytes) : goReplace s old new 0 = s := by
  simp [goReplace]

lemma truncGo_of_nonneg {w : Int} (hw : 0 ≤ w) (cmd : Bytes) :
    truncGo w cmd = .ok (truncPure w cmd) := by
  unfold truncGo truncPure
  split
  · rw [if_neg (by omega)]
  · rfl

lemma mkBlockChecked_some {lineWidth : Int} (maxFiles : Int) (action : History)
    (layer : Layer) (hw : 0 ≤ lineWidth - humanizedWidth - 4) :
    mkBlockChecked lineWidth maxFiles action (some layer) =
      .ok (blockAt lineWidth maxFiles action layer) := by
  unfold mkBlockChecked blockAt
  rw [truncGo_of_nonneg hw]

lemma reportLoop_eq_pairBlocks (lineWidth maxFiles : Int)
    (layersMap : List (Bytes × Layer)) (layerPaths : List Bytes) :
    ∀ (steps : List History) (i : Nat),
      reportLoop lineWidth maxFiles layersMap layerPaths steps i =
        pairBlocks lineWidth maxFiles layersMap steps (layerPaths.drop i) := by
  intro steps
  induction steps with
  | nil => intro i; rfl
  | cons action rest ih =>
    intro i
    rcases hdrop : layerPaths.drop i with _ | ⟨p, ps⟩
    · have hnone : layerPaths[i]? = none := by
        rw [List.getElem?_eq_none_iff]
        have := congrArg List.length hdrop
        simp only [List.length_drop, List.length_nil] at this
        omega
      rw [reportLoop, pairBlocks]
      simp only [hnone]
    · have hip : layerPaths[i]? = some p := by
        have h0 : (layerPaths.drop i)[0]? = some p := by simp [hdrop]
        rwa [List.getElem?_drop, Nat.add_zero] at h0
      have hdrop1 : layerPaths.drop (i + 1) = ps := by
        rw [← List.drop_drop, hdrop]
        rfl
      rw [reportLoop, pairBlocks]
      simp only [hip]
      rcases hmk : mkBlockChecked lineWidth maxFiles action
          (lookupLayer layersMap p) with e | b <;> simp only [hmk]
      simp only [ih (i + 1), hdrop1]

lemma pairBlocks_ok (lineWidth maxFiles : Int) (layersMap : List (Bytes × Layer))
    (hw : 0 ≤ lineWidth - humanizedWidth - 4) :
    ∀ (steps : List History) (ps : List Bytes),
      steps.length ≤ ps.length →
      (∀ p ∈ ps.take steps.length, (lookupLayer layersMap p).isSome) →
      pairBlocks lineWidth maxFiles layersMap steps ps =
        ((steps.zip ps).map fun pr =>
          blockAt lineWidth maxFiles pr.1
            ((lookupLayer layersMap pr.2).getD ⟨[], 0⟩), none) := by
  intro steps
  induction steps with
  | nil => intro ps _ _; simp [pairBlocks]
  | cons action rest ih =>
    intro ps hlen hlk
    rcases ps with _ | ⟨p, ps2⟩
    · simp at hlen
    · have hp : (lookupLayer layersMap p).isSome := by
        apply hlk
        simp [List.take_cons]
      rcases hsome : lookupLayer layersMap p with _ | ly
      · rw [hsome] at hp; simp at hp
      · rw [pairBlocks, hsome, mkBlockChecked_some maxFiles action ly hw]
        have hrest := ih ps2 (by simpa using hlen)
          (by intro q hq; exact hlk q (by simp [List.take_cons]; right; exact hq))
        simp only [hrest, List.zip_cons_cons, List.map_cons, hsome, Option.getD_some]

lemma pairBlocks_overflow (lineWidth maxFiles : Int)
    (layersMap : List (Bytes × Layer)) (hw : 0 ≤ lineWidth - humanizedWidth - 4) :
    ∀ (steps : List History) (ps : List Bytes),
      ps.length < steps.length →
      (∀ p ∈ ps, (lookupLayer layersMap p).isSome) →
      (pairBlocks lineWidth maxFiles layersMap steps ps).2 =
        some RunError.layerIndexOutOfRange ∧
      (pairBlocks lineWidth maxFiles layersMap steps ps).1.length = ps.length := by
  intro steps
  induction steps with
  | nil => intro ps hlen _; simp at hlen
  | cons action rest ih =>
    intro ps hlen hlk
    rcases ps with _ | ⟨p, ps2⟩
    · exact ⟨rfl, rfl⟩
    · have hp : (lookupLayer layersMap p).isSome := hlk p (by simp)
      rcases hsome : lookupLayer layersMap p with _ | ly
      · rw [hsome] at hp; simp at hp
      · rw [pairBlocks, hsome, mkBlockChecked_some maxFiles action ly hw]
        have hrest := ih ps2 (by simpa using hlen)
          (fun q hq => hlk q (by simp [hq]))
        simpa using hrest

lemma runReport_eq_pairBlocks (lineWidth maxFiles : Int) (m : ManifestItem)
    (rest : List ManifestItem) (img : Image) (layersMap : List (Bytes × Layer)) :
    runReport lineWidth maxFiles (m :: rest) img layersMap =
      pairBlocks lineWidth maxFiles layersMap
        (img.history.filter fun a => !a.emptyLayer) m.layers := by
  unfold runReport
  simp only [List.getElem?_cons_zero]
  rw [removeEmptyLayers_eq_filter, List.nil_append,
    reportLoop_eq_pairBlocks, List.drop_zero]

lemma bytesLt_asymm (a : Bytes) : ∀ (b : Bytes),
    bytesLt a b = true → bytesLt b a = false := by
  induction a with
  | nil =>
    intro b h
    cases b with
    | nil => simp [bytesLt] at h
    | cons y bs => simp [bytesLt]
  | cons x as ih =>
    intro b h
    cases b with
    | nil => simp [bytesLt] at h
    | cons y bs =>
      simp only [bytesLt] at h ⊢
      by_cases h1 : x < y
      · simp [h1, Nat.lt_asymm h1]
      · by_cases h2 : y < x
        · simp [h1, h2] at h
        · simp [h1, h2] at h ⊢
          exact ih bs h

lemma bytesLt_trans (a : Bytes) : ∀ (b c : Bytes),
    bytesLt a b = true → bytesLt b c = true → bytesLt a c = true := by
  induction a with
  | nil =>
    intro b c hab hbc
    cases b with
    | nil => simp [bytesLt] at hab
    | cons y bs =>
      cases c with
      | nil => simp [bytesLt] at hbc
      | cons z cs => simp [bytesLt]
  | cons x as ih =>
    intro b c hab hbc
    cases b with
    | nil => simp [bytesLt] at hab
    | cons y bs =>
      cases c with
      | nil => simp [bytesLt] at hbc
      | cons z cs =>
        simp only [bytesLt] at hab hbc ⊢
        by_cases h1 : x < y <;> by_cases h2 : y < z
        · simp [Nat.lt_trans h1 h2]
        · simp only [if_neg h2] at hbc
          by_cases h3 : z < y
          · simp [h3] at hbc
          · have hyz : y = z := by omega
            subst hyz
            simp [h1]
        · simp only [if_neg h1] at hab
          by_cases h3 : y < x
          · simp [h3] at hab
          · have hxy : x = y := by omega
            subst hxy
            simp [h2]
        · simp only [if_neg h1] at hab
          simp only [if_neg h2] at hbc
          by_cases h3 : y < x
          · simp [h3] at hab
          · by_cases h4 : z < y
            · simp [h4] at hbc
            · simp only [if_neg h3] at hab
              simp only [if_neg h4] at hbc
              have hxy : x = y := by omega
              subst hxy
              have hyz : x = z := by omega
              subst hyz
              simp [Nat.lt_irrefl]
              exact ih bs cs hab hbc

lemma bytesLt_eq_of_not_lt (a : Bytes) : ∀ (b : Bytes),
    bytesLt a b = false → bytesLt b a = false → a = b := by
  induction a with
  | nil =>
    intro b hab _
    cases b with
    | nil => rfl
    | cons y bs => simp [bytesLt] at hab
  | cons x as ih =>
    intro b hab hba
    cases b with
    | nil => simp [bytesLt] at hba
    | cons y bs =>
      simp only [bytesLt] at hab hba
      by_cases h1 : x < y
      · simp [h1] at hab
      · by_cases h2 : y < x
        · simp [h1, h2] at hba
        · simp only [if_neg h1, if_neg h2] at hab hba
          have hxy : x = y := by omega
          rw [hxy, ih bs hab hba]

lemma fileLe_iff (a b : TarHeader) :
    fileLe a b = true ↔
      b.size < a.size ∨ (a.size = b.size ∧ bytesLt b.name a.name = false) := by
  unfold fileLe fileLess
  by_cases h : b.size = a.size
  · simp [h]
  · simp [h]
    constructor
    · intro hn; omega
    · intro hn
      rcases hn with hn | hn
      · omega
      · omega

lemma fileLe_total (a b : TarHeader) : fileLe a b || fileLe b a := by
  rw [Bool.or_eq_true, fileLe_iff, fileLe_iff]
  by_cases h : a.size = b.size
  · by_cases hn : bytesLt b.name a.name
    · right; right
      exact ⟨h.symm, bytesLt_asymm _ _ hn⟩
    · left; right
      exact ⟨h, by simpa using hn⟩
  · omega

lemma fileLe_trans (a b c : TarHeader) :
    fileLe a b → fileLe b c → fileLe a c := by
  rw [fileLe_iff, fileLe_iff, fileLe_iff]
  intro hab hbc
  rcases hab with hab | ⟨hab1, hab2⟩
  · rcases hbc with hbc | ⟨hbc1, hbc2⟩
    · left; omega
    · left; omega
  · rcases hbc with hbc | ⟨hbc1, hbc2⟩
    · left; omega
    · right
      refine ⟨by omega, ?_⟩
      by_cases hcb : bytesLt c.name b.name
      · simp [hcb] at hbc2
      · by_cases hca : bytesLt c.name a.name
        · by_cases hbc3 : bytesLt b.name c.name
          · have := bytesLt_trans _ _ _ hbc3 hca
            rw [this] at hab2
            simp at hab2
          · have hbceq : b.name = c.name :=
              bytesLt_eq_of_not_lt _ _ (by simpa using hbc3) (by simpa using hcb)
            rw [← hbceq] at hca
            rw [hca] at hab2
            simp at hab2
        · simpa using hca

instance : IsTotal TarHeader fileLeP :=
  ⟨fun a b => (Bool.or_eq_true _ _).mp (fileLe_total a b)⟩

instance : IsTrans TarHeader fileLeP :=
  ⟨fileLe_trans⟩

lemma splitAfterFirst_eq_none (sep : Bytes) (hsep : sep ≠ []) :
    ∀ (s : Bytes), ¬ sep <:+: s → splitAfterFirst sep s = none := by
  intro s
  induction s with
  | nil =>
    intro _
    simp [splitAfterFirst, List.isEmpty_iff, hsep]
  | cons c rest ih =>
    intro hni
    rw [splitAfterFirst]
    by_cases hpre : sep.isPrefixOf (c :: rest)
    · exact absurd (List.isPrefixOf_iff_prefix.1 hpre).isInfix hni
    · rw [if_neg hpre]
      exact ih fun hi => hni (List.infix_cons hi)

lemma splitAfterFirst_eq_some (sep : Bytes) (hsep : sep ≠ []) :
    ∀ (s : Bytes), sep <:+: s → ∃ b, splitAfterFirst sep s = some b := by
  intro s
  induction s with
  | nil =>
    intro hi
    exact absurd (List.eq_nil_of_infix_nil hi) hsep
  | cons c rest ih =>
    intro hi
    rw [splitAfterFirst]
    by_cases hpre : sep.isPrefixOf (c :: rest)
    · exact ⟨_, by rw [if_pos hpre]⟩
    · rw [if_neg hpre]
      rcases List.infix_cons_iff.1 hi with hp | hi2
      · exact absurd (List.isPrefixOf_iff_prefix.2 hp) hpre
      · exact ih hi2

lemma splitAfterFirst_spec (sep : Bytes) (hsep : sep ≠ []) :
    ∀ (s b : Bytes), splitAfterFirst sep s = some b →
      ∃ a, s = a ++ sep ++ b ∧
        ∀ a2 b2, s = a2 ++ sep ++ b2 → a.length ≤ a2.length := by
  intro s
  induction s with
  | nil =>
    intro b h
    rw [splitAfterFirst, if_neg (by simpa [List.isEmpty_iff] using hsep)] at h
    exact absurd h (by simp)
  | cons c rest ih =>
    intro b h
    rw [splitAfterFirst] at h
    by_cases hpre : sep.isPrefixOf (c :: rest)
    · rw [if_pos hpre, Option.some.injEq] at h
      obtain ⟨t, ht⟩ := List.isPrefixOf_iff_prefix.1 hpre
      have hb : t = b := by rw [← h, ← ht, List.drop_left]
      subst hb
      exact ⟨[], by rw [List.nil_append, ← ht], fun a2 b2 _ => Nat.zero_le _⟩
    · rw [if_neg hpre] at h
      obtain ⟨a, ha, hmin⟩ := ih b h
      refine ⟨c :: a, by simp [ha], ?_⟩
      intro a2 b2 heq
      rcases a2 with _ | ⟨c2, a2t⟩
      · exfalso
        apply hpre
        apply List.isPrefixOf_iff_prefix.2
        exact ⟨b2, by simpa using heq.symm⟩
      · simp only [List.cons_append, List.cons.injEq] at heq
        obtain ⟨-, heq2⟩ := heq
        simpa using Nat.succ_le_succ (hmin a2t b2 heq2)

lemma extractLoop_spec (entries : List TarHeader) :
    ∀ (fs : List TarHeader) (total : Nat), total < 2 ^ 64 →
      extractLoop fs total entries =
        { files := fs ++ entries.filter (fun h => !h.isDir),
          size := (total +
            ((entries.filter (fun h => !h.isDir)).map TarHeader.size).sum) % 2 ^ 64 } := by
  induction entries with
  | nil =>
    intro fs total ht
    simp only [extractLoop, List.filter_nil, List.append_nil, List.map_nil,
      List.sum_nil, Nat.add_zero, Layer.mk.injEq]
    exact ⟨trivial, (Nat.mod_eq_of_lt ht).symm⟩
  | cons h rest ih =>
    intro fs total ht
    by_cases hd : h.isDir
    · rw [extractLoop, if_pos hd, ih fs total ht]
      simp [List.filter_cons, hd]
    · rw [extractLoop, if_neg hd,
        ih (fs ++ [h]) _ (Nat.mod_lt _ (by norm_num))]
      simp only [List.filter_cons, hd, Bool.not_false, if_pos, List.map_cons,
        List.sum_cons, List.append_assoc, List.singleton_append, Nat.mod_add_mod]
      rw [Nat.add_assoc]

/-- The history replacement an image document performs, if any: none when
the field is left untouched (history key absent), some of the new value
otherwise (nil for an explicit null, the decoded steps for an array). -/
def HistoryField.update : HistoryField → Option (List History)
  | .absent => none
  | .null => some []
  | .withValue h => some h

/-- Spec-side view for reconciling the walk with the claim about history
decoding: the optional history update contributed by one entry.  It is
none when the entry is not dispatched to the image decoder, and some u
when it is, where u is the document's replacement effect on the history
field. -/
def historyUpdateOf (e : Entry) : Option (Option (List History)) :=
  if layerTarSuffix.isSuffixOf e.name then none
  else if e.name = manifestName then none
  else if jsonSuffix.isSuffixOf e.name then
    match e.content with
    | .imageDoc f => some f.update
    | _ => none
  else none

/-- The history updates carried by the plain .json entries of the archive,
in archive order. -/
def historyUpdates (entries : List Entry) : List (Option (List History)) :=
  entries.filterMap historyUpdateOf

lemma classifyStep_history {st0 st1 : WalkState} {e : Entry}
    (hc : classifyStep st0 e = .ok st1) :
    st1.img.history = ((historyUpdateOf e).getD none).getD st0.img.history := by
  obtain ⟨nm, ct⟩ := e
  unfold classifyStep at hc
  unfold historyUpdateOf
  dsimp only at hc ⊢
  by_cases h1 : layerTarSuffix.isSuffixOf nm
  · rw [if_pos h1] at hc ⊢
    rcases ct with es | its | ho | _
    · cases hc
      rfl
    · simp at hc
    · simp at hc
    · simp at hc
  · rw [if_neg h1] at hc ⊢
    by_cases h2 : nm = manifestName
    · rw [if_pos h2] at hc ⊢
      rcases ct with es | its | ho | _
      · simp at hc
      · cases hc
        rfl
      · simp at hc
      · simp at hc
    · rw [if_neg h2] at hc ⊢
      by_cases h3 : jsonSuffix.isSuffixOf nm
      · rw [if_pos h3] at hc ⊢
        rcases ct with es | its | ho | _
        · simp at hc
        · simp at hc
        · cases hc
          rcases ho with _ | _ | h <;> rfl
        · simp at hc
      · rw [if_neg h3] at hc ⊢
        cases hc
        rfl

lemma walk_history (entries : List Entry) :
    ∀ (st0 st : WalkState), walk st0 entries = .ok st →
      st.img.history =
        (historyUpdates entries).foldl (fun cur u => u.getD cur) st0.img.history := by
  induction entries with
  | nil =>
    intro st0 st h
    rw [walk] at h
    cases h
    rfl
  | cons e rest ih =>
    intro st0 st h
    rw [walk] at h
    rcases hc : classifyStep st0 e with err | st1
    · rw [hc] at h
      cases h
    · rw [hc] at h
      have hrest := ih st1 st h
      have hstep := classifyStep_history hc
      simp only [historyUpdates, List.filterMap_cons] at hrest ⊢
      rcases hu : historyUpdateOf e with _ | u
      · rw [hu] at hstep
        simp only [Option.getD_none] at hstep
        rw [hrest, hstep]
      · rw [hu] at hstep
        simp only [Option.getD_some] at hstep
        rw [List.foldl_cons, hrest, hstep]

lemma lineWidth_cmd_nonneg {lineWidth : Int} (hw : 11 ≤ lineWidth) :
    (0 : Int) ≤ lineWidth - humanizedWidth - 4 := by
  have h7 : humanizedWidth = 7 := rfl
  omega

lemma runReport_mismatch (lineWidth maxFiles : Int) (m : ManifestItem)
    (rest : List ManifestItem) (img : Image) (layersMap : List (Bytes × Layer))
    (hw : 11 ≤ lineWidth)
    (hlk : ∀ p ∈ m.layers.take (img.history.filter fun a => !a.emptyLayer).length,
      (lookupLayer layersMap p).isSome) :
    ((img.history.filter fun a => !a.emptyLayer).length < m.layers.length →
      (runReport lineWidth maxFiles (m :: rest) img layersMap).2 = none ∧
      (runReport lineWidth maxFiles (m :: rest) img layersMap).1.length =
        (img.history.filter fun a => !a.emptyLayer).length) ∧
    (m.layers.length < (img.history.filter fun a => !a.emptyLayer).length →
      (runReport lineWidth maxFiles (m :: rest) img layersMap).2 =
        some RunError.layerIndexOutOfRange ∧
      (runReport lineWidth maxFiles (m :: rest) img layersMap).1.length =
        m.layers.length) := by
  have hw2 := lineWidth_cmd_nonneg hw
  constructor
  · intro hlt
    rw [runReport_eq_pairBlocks,
      pairBlocks_ok lineWidth maxFiles layersMap hw2
        (img.history.filter fun a => !a.emptyLayer) m.layers (le_of_lt hlt) hlk]
    exact ⟨rfl, by simp [Nat.min_eq_left (le_of_lt hlt)]⟩
  · intro hgt
    rw [runReport_eq_pairBlocks]
    have hlk2 : ∀ p ∈ m.layers, (lookupLayer layersMap p).isSome := by
      intro p hp
      apply hlk
      rwa [List.take_of_length_le (le_of_lt hgt)]
    exact pairBlocks_overflow lineWidth maxFiles layersMap hw2
      (img.history.filter fun a => !a.emptyLayer) m.layers hgt hlk2

/-- The concrete C1 archive: a manifest with one entry holding one layer
path, and one image JSON whose single history step is an empty layer, so
the non-empty history count is 0 while the manifest layer count is 1. -/
def c1Entries : List Entry :=
  [⟨manifestName, .manifestDoc [⟨[], [], [[97]]⟩]⟩,
   ⟨[97, 46, 106, 115, 111, 110], .imageDoc (.withValue [⟨true, [99]⟩])⟩]

/-- C1 counterexample: on this archive the count of non-empty history steps
(0) differs from the layer-path count of the first manifest entry (1), yet
the run finishes with no fatal error (and, incidentally, zero blocks), so
a count mismatch does not imply a fatal termination. -/
theorem c1_counterexample :
    walk initState c1Entries =
      .ok ⟨[⟨[], [], [[97]]⟩], ⟨[⟨true, [99]⟩]⟩, []⟩ ∧
    (((⟨[⟨true, [99]⟩]⟩ : Image).history.filter fun a => !a.emptyLayer).length ≠
      (⟨[], [], [[97]]⟩ : ManifestItem).layers.length) ∧
    run 100 10 c1Entries = ([], none) :=
  ⟨rfl, by decide, rfl⟩

/-- C1 amended: a count mismatch is not uniformly fatal with zero blocks.
When the filtered history count is below the manifest layer count the run
completes normally with one block per filtered step; when it exceeds the
manifest layer count the run fails with the index-out-of-range fatal error
after emitting one block per manifest layer path. -/
theorem c1_mismatch_behavior (lineWidth maxFiles : Int) (entries : List Entry)
    (st : WalkState) (m : ManifestItem) (rest : List ManifestItem)
    (hwalk : walk initState entries = .ok st)
    (hm : st.manifests = m :: rest)
    (hw : 11 ≤ lineWidth)
    (hlk : ∀ p ∈ m.layers.take (st.img.history.filter fun a => !a.emptyLayer).length,
      (lookupLayer st.layers p).isSome) :
    ((st.img.history.filter fun a => !a.emptyLayer).length < m.layers.length →
      (run lineWidth maxFiles entries).2 = none ∧
      (run lineWidth maxFiles entries).1.length =
        (st.img.history.filter fun a => !a.emptyLayer).length) ∧
    (m.layers.length < (st.img.history.filter fun a => !a.emptyLayer).length →
      (run lineWidth maxFiles entries).2 = some RunError.layerIndexOutOfRange ∧
      (run lineWidth maxFiles entries).1.length = m.layers.length) := by
  have hrun : run lineWidth maxFiles entries =
      runReport lineWidth maxFiles st.manifests st.img st.layers := by
    rw [run, hwalk]
  rw [hrun, hm]
  exact runReport_mismatch lineWidth maxFiles m rest st.img st.layers hw hlk

/-- The archive for the C1 amended witness: one layer tar at path a, a
manifest declaring that single path, and two non-empty history steps, so
the filtered count 2 exceeds the layer count 1. -/
def c1WEntries : List Entry :=
  [⟨[97, 47, 108, 97, 121, 101, 114, 46, 116, 97, 114],
     .tarEntries [⟨[98], 4, false⟩]⟩,
   ⟨manifestName,
     .manifestDoc [⟨[], [], [[97, 47, 108, 97, 121, 101, 114, 46, 116, 97, 114]]⟩]⟩,
   ⟨[97, 46, 106, 115, 111, 110],
     .imageDoc (.withValue [⟨false, [99]⟩, ⟨false, [100]⟩])⟩]

/-- Witness for the C1 amended theorem on a concrete overflowing archive. -/
theorem c1_mismatch_behavior_witness :
    (run 100 10 c1WEntries).2 = some RunError.layerIndexOutOfRange ∧
    (run 100 10 c1WEntries).1.length =
      (⟨[], [], [[97, 47, 108, 97, 121, 101, 114, 46, 116, 97, 114]]⟩ :
        ManifestItem).layers.length :=
  (c1_mismatch_behavior 100 10 c1WEntries
      ⟨[⟨[], [], [[97, 47, 108, 97, 121, 101, 114, 46, 116, 97, 114]]⟩],
       ⟨[⟨false, [99]⟩, ⟨false, [100]⟩]⟩,
       [([97, 47, 108, 97, 121, 101, 114, 46, 116, 97, 114],
         ⟨[⟨[98], 4, false⟩], 4⟩)]⟩
      ⟨[], [], [[97, 47, 108, 97, 121, 101, 114, 46, 116, 97, 114]]⟩ []
      rfl rfl (by decide) (by decide)).2 (by decide)

/-- C2: with exactly one manifest entry whose layer count L equals the
count of non-empty history steps, the run emits exactly L blocks with no
fatal error, in manifest layer order: the i-th block is built from the i-th
surviving history step and the layer stored under the i-th manifest layer
path. -/
theorem c2_block_pairing (lineWidth maxFiles : Int) (m : ManifestItem)
    (img : Image) (layersMap : List (Bytes × Layer))
    (hw : 11 ≤ lineWidth)
    (hL : (img.history.filter fun a => !a.emptyLayer).length = m.layers.length)
    (hlk : ∀ p ∈ m.layers, (lookupLayer layersMap p).isSome) :
    ∃ blocks, runReport lineWidth maxFiles [m] img layersMap = (blocks, none) ∧
      blocks.length = m.layers.length ∧
      ∀ i (hi : i < m.layers.length), ∃ ly,
        lookupLayer layersMap (m.layers.get ⟨i, hi⟩) = some ly ∧
        blocks[i]? = some (blockAt lineWidth maxFiles
          ((img.history.filter fun a => !a.emptyLayer).get
            ⟨i, by rw [hL]; exact hi⟩) ly) := by
  have hw2 := lineWidth_cmd_nonneg hw
  have hok := pairBlocks_ok lineWidth maxFiles layersMap hw2
    (img.history.filter fun a => !a.emptyLayer) m.layers (le_of_eq hL)
    (fun p hp => hlk p (List.mem_of_mem_take hp))
  refine ⟨((img.history.filter fun a => !a.emptyLayer).zip m.layers).map
      (fun pr => blockAt lineWidth maxFiles pr.1
        ((lookupLayer layersMap pr.2).getD ⟨[], 0⟩)), ?_, ?_, ?_⟩
  · rw [runReport_eq_pairBlocks]
    exact hok
  · simp [hL]
  · intro i hi
    have hfi : i < (img.history.filter fun a => !a.emptyLayer).length := by omega
    obtain ⟨ly, hly⟩ := Option.isSome_iff_exists.1
      (hlk (m.layers.get ⟨i, hi⟩) (List.get_mem m.layers i hi))
    refine ⟨ly, hly, ?_⟩
    have hzip : ((img.history.filter fun a => !a.emptyLayer).zip m.layers)[i]? =
        some ((img.history.filter fun a => !a.emptyLayer).get ⟨i, hfi⟩,
          m.layers.get ⟨i, hi⟩) := by
      apply List.getElem?_zip_eq_some.2
      constructor
      · rw [List.getElem?_eq_getElem hfi]
        simp
      · rw [List.getElem?_eq_getElem hi]
        simp
    rw [List.getElem?_map, hzip]
    simp only [List.get_eq_getElem] at hly
    simp [hly]

/-- Concrete input for the C2 witness: one manifest entry with one layer
path, one empty and one non-empty history step, and the declared layer
stored in the map. -/
def c2m : ManifestItem := ⟨[], [], [[97]]⟩

/-- Image for the C2 witness. -/
def c2img : Image := ⟨[⟨true, [70]⟩, ⟨false, [99, 100]⟩]⟩

/-- Layer map for the C2 witness. -/
def c2lm : List (Bytes × Layer) := [([97], ⟨[⟨[98], 100, false⟩], 100⟩)]

/-- Witness for C2 on the concrete one-layer archive. -/
theorem c2_block_pairing_witness :
    ∃ blocks, runReport 100 10 [c2m] c2img c2lm = (blocks, none) ∧
      blocks.length = c2m.layers.length ∧
      ∀ i (hi : i < c2m.layers.length), ∃ ly,
        lookupLayer c2lm (c2m.layers.get ⟨i, hi⟩) = some ly ∧
        blocks[i]? = some (blockAt 100 10
          ((c2img.history.filter fun a => !a.emptyLayer).get
            ⟨i, by rw [(by decide :
              (c2img.history.filter fun a => !a.emptyLayer).length =
                c2m.layers.length)]; exact hi⟩) ly) :=
  c2_block_pairing 100 10 c2m c2img c2lm (by decide) (by decide) (by decide)

/-- C3: when the filtered history count is strictly below the manifest
layer count the run completes normally with exactly one block per filtered
step; when it strictly exceeds the manifest layer count the run fails with
the fatal index-out-of-range error (after one block per layer path, so
neither truncation nor padding happens). -/
theorem c3_partial_and_overflow (lineWidth maxFiles : Int) (m : ManifestItem)
    (rest : List ManifestItem) (img : Image) (layersMap : List (Bytes × Layer))
    (hw : 11 ≤ lineWidth)
    (hlk : ∀ p ∈ m.layers.take (img.history.filter fun a => !a.emptyLayer).length,
      (lookupLayer layersMap p).isSome) :
    ((img.history.filter fun a => !a.emptyLayer).length < m.layers.length →
      (runReport lineWidth maxFiles (m :: rest) img layersMap).2 = none ∧
      (runReport lineWidth maxFiles (m :: rest) img layersMap).1.length =
        (img.history.filter fun a => !a.emptyLayer).length) ∧
    (m.layers.length < (img.history.filter fun a => !a.emptyLayer).length →
      (runReport lineWidth maxFiles (m :: rest) img layersMap).2 =
        some RunError.layerIndexOutOfRange ∧
      (runReport lineWidth maxFiles (m :: rest) img layersMap).1.length =
        m.layers.length) :=
  runReport_mismatch lineWidth maxFiles m rest img layersMap hw hlk

/-- Manifest for the C3 witness, undershoot side: two layer paths. -/
def c3mUnder : ManifestItem := ⟨[], [], [[97], [98]]⟩

/-- Manifest for the C3 witness, overflow side: one layer path. -/
def c3mOver : ManifestItem := ⟨[], [], [[97]]⟩

/-- Image with one non-empty step, for the undershoot side. -/
def c3imgUnder : Image := ⟨[⟨false, [99]⟩]⟩

/-- Image with two non-empty steps, for the overflow side. -/
def c3imgOver : Image := ⟨[⟨false, [99]⟩, ⟨false, [100]⟩]⟩

/-- Layer map holding the layer at path a, for both C3 witness sides. -/
def c3lm : List (Bytes × Layer) := [([97], ⟨[], 0⟩)]

/-- Witness for C3 on both sides: one filtered step against two layer
paths completes with one block, two filtered steps against one layer path
fail with the out-of-range error after one block. -/
theorem c3_partial_and_overflow_witness :
    ((runReport 100 10 [c3mUnder] c3imgUnder c3lm).2 = none ∧
      (runReport 100 10 [c3mUnder] c3imgUnder c3lm).1.length =
        (c3imgUnder.history.filter fun a => !a.emptyLayer).length) ∧
    ((runReport 100 10 [c3mOver] c3imgOver c3lm).2 =
        some RunError.layerIndexOutOfRange ∧
      (runReport 100 10 [c3mOver] c3imgOver c3lm).1.length =
        c3mOver.layers.length) :=
  ⟨(c3_partial_and_overflow 100 10 c3mUnder [] c3imgUnder c3lm
      (by decide) (by decide)).1 (by decide),
   (c3_partial_and_overflow 100 10 c3mOver [] c3imgOver c3lm
      (by decide) (by decide)).2 (by decide)⟩

/-- C4: the rendered sequence for a layer is a permutation of its file
list in which, for any earlier file and any later file, either the earlier
one has the strictly larger size, or the sizes are equal and the earlier
name is not lexicographically greater; and sorting an already sorted list
changes nothing, so the sort is idempotent. -/
theorem c4_sort_policy (l : List TarHeader) :
    (sortFiles l).Perm l ∧
    (sortFiles l).Pairwise (fun a b =>
      b.size < a.size ∨ (a.size = b.size ∧ bytesLt b.name a.name = false)) ∧
    sortFiles (sortFiles l) = sortFiles l := by
  refine ⟨List.perm_insertionSort fileLeP l, ?_, ?_⟩
  · exact (List.sorted_insertionSort fileLeP l).imp
      (fun hab => (fileLe_iff _ _).1 hab)
  · exact (List.sorted_insertionSort fileLeP l).insertionSort_eq

/-- C5: when the raw createdBy contains the marker "/bin/sh -c ", the
derived command is exactly the bytes after the first occurrence of the
marker; otherwise the raw createdBy is used unchanged. -/
theorem c5_command_derivation (s : Bytes) :
    (shMarker <:+: s →
      ∃ a b, s = a ++ shMarker ++ b ∧ deriveCmd s = b ∧
        ∀ a2 b2, s = a2 ++ shMarker ++ b2 → a.length ≤ a2.length) ∧
    (¬ shMarker <:+: s → deriveCmd s = s) := by
  have hsep : shMarker ≠ [] := by simp [shMarker]
  constructor
  · intro hin
    obtain ⟨b, hb⟩ := splitAfterFirst_eq_some shMarker hsep s hin
    obtain ⟨a, ha, hmin⟩ := splitAfterFirst_spec shMarker hsep s b hb
    exact ⟨a, b, ha, by rw [deriveCmd, hb], hmin⟩
  · intro hni
    rw [deriveCmd, splitAfterFirst_eq_none shMarker hsep s hni]

/-- The example createdBy "/bin/sh -c echo hi". -/
def shExample : Bytes :=
  [47, 98, 105, 110, 47, 115, 104, 32, 45, 99, 32, 101, 99, 104, 111, 32, 104, 105]

/-- The example createdBy "COPY . ." with no marker. -/
def copyExample : Bytes := [67, 79, 80, 89, 32, 46, 32, 46]

/-- Witness for C5 on both example commands: the marker case at
"/bin/sh -c echo hi" and the marker-free case at "COPY . .". -/
theorem c5_command_derivation_witness :
    (∃ a b, shExample = a ++ shMarker ++ b ∧ deriveCmd shExample = b ∧
      ∀ a2 b2, shExample = a2 ++ shMarker ++ b2 → a.length ≤ a2.length) ∧
    deriveCmd copyExample = copyExample :=
  ⟨(c5_command_derivation shExample).1 (by decide),
   (c5_command_derivation copyExample).2 (by decide)⟩

/-- A tar header carrying the maximal int64 size. -/
def hugeHeader : TarHeader := { name := [97], size := 2 ^ 63 - 1, isDir := false }

/-- C6 counterexample: three non-directory headers of size 2^63 - 1 make
the uint64 total wrap, so the stored layer total is not the exact sum of
the non-directory entry sizes. -/
theorem c6_counterexample :
    (extractLayer [hugeHeader, hugeHeader, hugeHeader]).size ≠
      (([hugeHeader, hugeHeader, hugeHeader].filter
        (fun h => !h.isDir)).map TarHeader.size).sum := by
  decide

/-- C6 amended: directory entries appear in neither the file list nor the
total, the file list preserves nested-archive order (it is the
order-preserving filter of the entries), and the total is the sum of the
non-directory sizes reduced modulo 2^64, hence the exact sum whenever that
sum fits in a uint64. -/
theorem c6_layer_extraction (entries : List TarHeader) :
    (extractLayer entries).files = entries.filter (fun h => !h.isDir) ∧
    (extractLayer entries).size =
      ((entries.filter (fun h => !h.isDir)).map TarHeader.size).sum % 2 ^ 64 ∧
    (((entries.filter (fun h => !h.isDir)).map TarHeader.size).sum < 2 ^ 64 →
      (extractLayer entries).size =
        ((entries.filter (fun h => !h.isDir)).map TarHeader.size).sum) := by
  have h := extractLoop_spec entries [] 0 (by norm_num)
  rw [extractLayer, h]
  refine ⟨by simp, by simp, fun hlt => ?_⟩
  dsimp only
  rw [Nat.zero_add]
  exact Nat.mod_eq_of_lt hlt

/-- Concrete entries for the C6 witness: two files and one directory. -/
def c6Entries : List TarHeader :=
  [⟨[97], 5, false⟩, ⟨[98], 3, true⟩, ⟨[99], 2, false⟩]

/-- Witness for C6 on a small nested archive: the directory is excluded
and the total is the exact sum 7 of the two file sizes. -/
theorem c6_layer_extraction_witness :
    (extractLayer c6Entries).files = c6Entries.filter (fun h => !h.isDir) ∧
    (extractLayer c6Entries).size =
      ((c6Entries.filter (fun h => !h.isDir)).map TarHeader.size).sum :=
  ⟨(c6_layer_extraction c6Entries).1,
   (c6_layer_extraction c6Entries).2.2 (by decide)⟩

/-- C7: the number of file lines in an emitted block is the minimum of
maxFiles and the layer's file count: the first maxFiles sorted entries, or
all of them when the layer has fewer. -/
theorem c7_block_line_count (lineWidth maxFiles : Int) (action : History)
    (layer : Layer) (b : Block) (_hmf : 0 ≤ maxFiles)
    (hb : mkBlockChecked lineWidth maxFiles action (some layer) = .ok b) :
    b.shown.length = min maxFiles.toNat layer.files.length := by
  unfold mkBlockChecked at hb
  rcases ht : truncGo (lineWidth - humanizedWidth - 4)
      (deriveCmd action.createdBy) with e | cmd
  · rw [ht] at hb
    cases hb
  · rw [ht] at hb
    cases hb
    simp [sortFiles, List.length_take, List.length_insertionSort]

/-- Witness for C7 at maxFiles = 10 on a one-file layer. -/
theorem c7_block_line_count_witness :
    (⟨1, [], [⟨[97], 1, false⟩]⟩ : Block).shown.length =
      min (10 : Int).toNat ([⟨[97], 1, false⟩] : List TarHeader).length :=
  c7_block_line_count 100 10 ⟨false, []⟩ ⟨[⟨[97], 1, false⟩], 1⟩
    ⟨1, [], [⟨[97], 1, false⟩]⟩ (by decide) (by decide)

/-- C8: with cmdWidth = lineWidth - humanizedWidth - 4, a derived command
longer than cmdWidth is displayed as exactly its first cmdWidth raw bytes
(a hard cut with no ellipsis), and a command of at most cmdWidth bytes is
displayed unmodified. -/
theorem c8_command_truncation (lineWidth maxFiles : Int) (action : History)
    (layer : Layer) (b : Block)
    (hw : 0 ≤ lineWidth - humanizedWidth - 4)
    (hb : mkBlockChecked lineWidth maxFiles action (some layer) = .ok b) :
    (((deriveCmd action.createdBy).length : Int) > lineWidth - humanizedWidth - 4 →
      b.cmdLine = (deriveCmd action.createdBy).take
        (lineWidth - humanizedWidth - 4).toNat) ∧
    (((deriveCmd action.createdBy).length : Int) ≤ lineWidth - humanizedWidth - 4 →
      b.cmdLine = deriveCmd action.createdBy) := by
  rw [mkBlockChecked_some maxFiles action layer hw] at hb
  have hcl : b.cmdLine = truncPure (lineWidth - humanizedWidth - 4)
      (deriveCmd action.createdBy) := by
    cases hb
    simp only [blockAt]
    exact goReplace_count_zero _ _ _
  constructor
  · intro hlong
    rw [hcl, truncPure, if_pos hlong]
  · intro hshort
    rw [hcl, truncPure, if_neg (by omega)]

/-- Witness for C8 at lineWidth 12 (cmdWidth 1) on the two-byte command
"CD": the displayed command is the single byte "C". -/
theorem c8_command_truncation_witness :
    (⟨0, [67], []⟩ : Block).cmdLine =
      (deriveCmd [67, 68]).take ((12 : Int) - humanizedWidth - 4).toNat :=
  (c8_command_truncation 12 10 ⟨false, [67, 68]⟩ ⟨[], 0⟩ ⟨0, [67], []⟩
    (by decide) (by decide)).1 (by decide)

/-- C9 counterexample: in an archive with two plain .json entries where the
second document has no history key, the history used for reconciliation is
the one from the first entry, not the one decoded from the last entry
(which alone yields an empty history): earlier decodes do contribute. -/
theorem c9_counterexample :
    walk initState
      [⟨[97, 46, 106, 115, 111, 110], .imageDoc (.withValue [⟨false, [99]⟩])⟩,
       ⟨[98, 46, 106, 115, 111, 110], .imageDoc .absent⟩] =
      .ok ⟨[], ⟨[⟨false, [99]⟩]⟩, []⟩ ∧
    walk initState [⟨[98, 46, 106, 115, 111, 110], .imageDoc .absent⟩] =
      .ok ⟨[], ⟨[]⟩, []⟩ ∧
    ([⟨false, [99]⟩] : List History) ≠ ([] : List History) :=
  ⟨rfl, rfl, by decide⟩

lemma foldl_getD_eq (us : List (Option (List History))) :
    ∀ (init : List History),
      us.foldl (fun cur u => u.getD cur) init =
        ((us.filterMap id).getLast?).getD init := by
  induction us with
  | nil => intro init; rfl
  | cons u t ih =>
    intro init
    rcases u with _ | v
    · simp only [List.foldl_cons, Option.getD_none, List.filterMap_cons]
      exact ih init
    · simp only [List.foldl_cons, Option.getD_some, List.filterMap_cons, id]
      rw [ih v]
      rcases hfm : t.filterMap id with _ | ⟨x, xs⟩
      · simp
      · obtain ⟨w, hw⟩ := Option.isSome_iff_exists.1
          (List.getLast?_isSome.2 (List.cons_ne_nil x xs))
        simp [List.getLast?_cons_cons, hw]

/-- C9 amended: decoding a plain .json entry changes the history exactly
when the document carries a history key: a history array replaces the
value with the decoded steps, an explicit null resets it to the empty
slice, and a document without the key leaves the previous value in place.
The history used is therefore the replacement effect of the last .json
entry whose document carries a history key (empty when no entry does),
not unconditionally the decode of the last .json entry. -/
theorem c9_history_resolution (entries : List Entry) (st : WalkState)
    (h : walk initState entries = .ok st) :
    st.img.history =
      (((historyUpdates entries).filterMap id).getLast?).getD [] := by
  rw [walk_history entries initState st h]
  exact foldl_getD_eq (historyUpdates entries) initState.img.history

/-- The archive for the C9 amended witness, exercising all three document
shapes: a history array, a document without the key, an explicit null, and
a trailing document without the key. -/
def c9Entries : List Entry :=
  [⟨[97, 46, 106, 115, 111, 110], .imageDoc (.withValue [⟨false, [99]⟩])⟩,
   ⟨[98, 46, 106, 115, 111, 110], .imageDoc .absent⟩,
   ⟨[100, 46, 106, 115, 111, 110], .imageDoc .null⟩,
   ⟨[101, 46, 106, 115, 111, 110], .imageDoc .absent⟩]

/-- Witness for the C9 amended theorem on the four-entry archive: the
keyless second and fourth documents change nothing, and the explicit null
in the third resets the history, which is the effect of the last document
carrying a history key. -/
theorem c9_history_resolution_witness :
    (⟨[], ⟨[]⟩, []⟩ : WalkState).img.history =
      (((historyUpdates c9Entries).filterMap id).getLast?).getD [] :=
  c9_history_resolution c9Entries ⟨[], ⟨[]⟩, []⟩ rfl

/-- C10: the command text on the summary line is the truncated derived
command verbatim: strings.Replace is called with count 0, so it performs
no replacement and tab bytes survive. -/
theorem c10_replace_identity (lineWidth maxFiles : Int) (action : History)
    (layer : Layer) (b : Block)
    (hb : mkBlockChecked lineWidth maxFiles action (some layer) = .ok b) :
    ∃ cmd, truncGo (lineWidth - humanizedWidth - 4)
        (deriveCmd action.createdBy) = .ok cmd ∧
      goReplace cmd tabBytes spaceBytes 0 = cmd ∧ b.cmdLine = cmd := by
  unfold mkBlockChecked at hb
  rcases ht : truncGo (lineWidth - humanizedWidth - 4)
      (deriveCmd action.createdBy) with e | cmd
  · rw [ht] at hb
    cases hb
  · rw [ht] at hb
    cases hb
    refine ⟨cmd, rfl, goReplace_count_zero _ _ _, ?_⟩
    show goReplace cmd tabBytes spaceBytes 0 = cmd
    exact goReplace_count_zero _ _ _

/-- Witness for C10 on a command containing a tab byte: the tab survives
on the summary line. -/
theorem c10_replace_identity_witness :
    ∃ cmd, truncGo ((100 : Int) - humanizedWidth - 4)
        (deriveCmd [9, 120]) = .ok cmd ∧
      goReplace cmd tabBytes spaceBytes 0 = cmd ∧
      (⟨0, [9, 120], []⟩ : Block).cmdLine = cmd :=
  c10_replace_identity 100 10 ⟨false, [9, 120]⟩ ⟨[], 0⟩ ⟨0, [9, 120], []⟩ (by decide)

end Dolay
